import Mathlib

/-!
# Site resource adapter of terraform-provider-netbox

A shallow embedding of `netbox/resource_netbox_dcim_site.go` and of the library
behaviour it relies on (`strconv.FormatInt`, `strconv.ParseInt`, the regular
expression given to `validation.StringMatch`), followed by theorems about the
five lifecycle hooks `Create`, `Read`, `Update`, `Delete` and `Exists`.

Conventions of the embedding:

* a Go `string` is a Lean `String`; a Go `int64` is the subtype `Int64` of `Int`;
* the record handle `*schema.ResourceData` is the structure `ResourceData`,
  passed in and returned (explicit state passing);
* the inventory service behind `*netboxclient.NetBoxAPI` is an arbitrary
  state machine `NetBoxAPI σ`; every request the adapter sends is appended to
  the log `World.calls`, so that "issues no request" is a statement about data;
* a Go `error` result is `Option Error` (`none` is `nil`); a nil-pointer
  dereference is the outcome `Outcome.panic`.
-/

namespace Netbox

/-! ## Machine integers -/

/-- Go `int64`: the integers from `-2^63` to `2^63 - 1`. -/
abbrev Int64 : Type :=
  { n : Int // -9223372036854775808 ≤ n ∧ n < 9223372036854775808 }

/-- Conversion `int64(u)` of an unsigned 64-bit value, and the result of any
`int64` arithmetic: the representative of `x` modulo `2^64` in the `int64` range. -/
def wrapInt64 (x : Int) : Int64 :=
  ⟨(x + 9223372036854775808) % 18446744073709551616 - 9223372036854775808, by omega⟩

/-- Conversion `uint64(i)` of a signed value. -/
def toUint64 (i : Int64) : Nat := (i.val % 18446744073709551616).toNat

/-! ## `strconv` -/

namespace strconv

/-- The two sentinel errors `strconv.ErrSyntax` and `strconv.ErrRange`. -/
inductive ErrKind where
  | ErrSyntax
  | ErrRange
  deriving DecidableEq, Repr

/-- Go `strconv.NumError`. -/
structure NumError where
  Func : String
  Num : String
  Err : ErrKind
  deriving DecidableEq, Repr

def syntaxError (fn str : String) : NumError := ⟨fn, str, ErrKind.ErrSyntax⟩

def rangeError (fn str : String) : NumError := ⟨fn, str, ErrKind.ErrRange⟩

/-- Largest `uint64`. -/
def maxUint64 : Nat := 18446744073709551615

/-- The character of a decimal digit, `digits[d]` in Go for `d < 10`. -/
def digitChar (d : Nat) : Char := Char.ofNat ('0'.toNat + d)

/-- Go `lower(c)`, that is `c | ('x' - 'X')`, on the code of a character. -/
def lower (c : Nat) : Nat := c ||| 32

/-- The `switch` at the head of the loop of `strconv.ParseUint` (with `base0`
false, so an underscore is no separator): the digit a character stands for,
or `none` for the `default` case. Go ranges over the bytes of the string; a
byte of a multi-byte encoding is at least `0x80` and reaches `default`, as a
non-ASCII character does here. -/
def digitVal (c : Char) : Option Nat :=
  if '0' ≤ c ∧ c ≤ '9' then some (c.toNat - '0'.toNat)
  else if 'a'.toNat ≤ lower c.toNat ∧ lower c.toNat ≤ 'z'.toNat then
    some (lower c.toNat - 'a'.toNat + 10)
  else none

/-- The loop of `strconv.ParseUint(s, 10, 64)` over the remaining characters,
`n` being the value accumulated so far. `cutoff` is `maxUint64/10 + 1` and
`maxVal` is `2^64 - 1`; the product and the sum are taken modulo `2^64` as the
`uint64` operations are. The value returned with an error is the one Go returns. -/
def ParseUintLoop (s0 : String) : List Char → Nat → Nat × Option NumError
  | [], n => (n, none)
  | c :: cs, n =>
    match digitVal c with
    | none => (0, some (syntaxError "ParseUint" s0))
    | some d =>
      if d ≥ 10 then (0, some (syntaxError "ParseUint" s0))
      else if n ≥ maxUint64 / 10 + 1 then (maxUint64, some (rangeError "ParseUint" s0))
      else
        let n10 := n * 10 % 18446744073709551616
        let n1 := (n10 + d) % 18446744073709551616
        if n1 < n10 ∨ n1 > maxUint64 then (maxUint64, some (rangeError "ParseUint" s0))
        else ParseUintLoop s0 cs n1

/-- Go `strconv.ParseUint(s, 10, 64)`. -/
def ParseUint (s : String) : Nat × Option NumError :=
  match s.data with
  | [] => (0, some (syntaxError "ParseUint" s))
  | cs => ParseUintLoop s cs 0

/-- Go `strconv.ParseInt(s, 10, 64)`: an optional sign, then `ParseUint` on
the rest, then the range check against `cutoff = 2^63`. The `filter` is the
test `err != nil && err.Err != ErrRange`, after which the error of `ParseUint`
is returned under the name `ParseInt` and with the whole text; `int64(un)` and
the negation `-n` wrap modulo `2^64`. -/
def ParseInt (s0 : String) : Int64 × Option NumError :=
  match s0.data with
  | [] => (wrapInt64 0, some (syntaxError "ParseInt" s0))
  | c :: cs =>
    let neg := decide (c = '-')
    let s := if c = '+' then String.mk cs else if c = '-' then String.mk cs else s0
    let r := ParseUint s
    match r.2.filter (fun err => decide (err.Err ≠ ErrKind.ErrRange)) with
    | some err => (wrapInt64 0, some { err with Func := "ParseInt", Num := s0 })
    | none =>
      let un := r.1
      if !neg ∧ un ≥ 9223372036854775808 then
        (wrapInt64 9223372036854775807, some (rangeError "ParseInt" s0))
      else if neg ∧ un > 9223372036854775808 then
        (wrapInt64 (-9223372036854775808), some (rangeError "ParseInt" s0))
      else (if neg then wrapInt64 (-(wrapInt64 un).val) else wrapInt64 un, none)

/-- The digit loop of `strconv.formatBits` for base 10: the decimal digits of
`u` are written in front of `a`, least significant first, until `u < 10`.
`fuel` bounds the number of digits (a `uint64` has at most 20). -/
def formatBits : Nat → Nat → List Char → List Char
  | 0, _, a => a
  | fuel + 1, u, a =>
    if u < 10 then digitChar u :: a
    else formatBits fuel (u / 10) (digitChar (u % 10) :: a)

/-- Go `strconv.FormatInt(i, 10)`: `formatBits` on `uint64(i)`, negated (as a
`uint64`) and preceded by `-` when `i < 0`. -/
def FormatInt (i : Int64) : String :=
  if i.val < 0 then
    String.mk ('-' :: formatBits 20 ((18446744073709551616 - toUint64 i) % 18446744073709551616) [])
  else String.mk (formatBits 20 (toUint64 i) [])

end strconv

/-! ## Data model -/

/-- The fields of `models.Site` the adapter reads from a response: `ID int64`,
`Name *string`, `Slug *string` (`none` is the nil pointer), `Description string`. -/
structure Site where
  ID : Int64
  Name : Option String
  Slug : Option String
  Description : String
  deriving DecidableEq

/-- The fields of `models.WritableSite` the adapter fills in a request. `Slug`
and `Name` are pointers there; the adapter always passes `&slug` and `&name`. -/
structure WritableSite where
  Description : String
  Slug : String
  Name : String
  deriving DecidableEq

/-- The record handle `schema.ResourceData` of this resource: the opaque
identifier and the three fields of the schema. -/
structure ResourceData where
  id : String
  description : String
  name : String
  slug : String
  deriving DecidableEq

namespace ResourceData

/-- Go `d.Id()`. -/
def Id (d : ResourceData) : String := d.id

/-- Go `d.SetId(v)`. -/
def SetId (d : ResourceData) (v : String) : ResourceData := { d with id := v }

/-- Go `d.Get(key).(string)` for the keys of the schema. -/
def Get (d : ResourceData) (key : String) : String :=
  if key = "description" then d.description
  else if key = "name" then d.name
  else if key = "slug" then d.slug
  else ""

/-- Go `d.Set(key, value)` for a string value; a key outside the schema leaves
the handle as it is (the error `Set` returns is dropped by the adapter). -/
def Set (d : ResourceData) (key value : String) : ResourceData :=
  if key = "description" then { d with description := value }
  else if key = "name" then { d with name := value }
  else if key = "slug" then { d with slug := value }
  else d

end ResourceData

/-! ## Errors and outcomes -/

/-- An error value returned by the inventory-service client. -/
abbrev ServiceError : Type := String

/-- The Go `error` values the adapter returns, by where they were made: one
returned by a client call and passed on unchanged, the `*NumError` of
`strconv.ParseInt`, or a new value made by `fmt.Errorf` with the given text. -/
inductive Error where
  | service (err : ServiceError)
  | parse (err : strconv.NumError)
  | errorf (msg : String)
  deriving DecidableEq

/-- How a call of a hook ends: it returns a value and an `error` (`none` is
`nil`), or it panics on a nil-pointer dereference. -/
inductive Outcome (α : Type) where
  | ret (value : α) (err : Option Error)
  | panic
  deriving DecidableEq

/-! ## The inventory service -/

/-- The four operations of `client.Dcim` the adapter calls, as transitions of
an arbitrary service state `σ`. `DcimSitesList id` is the list call with the
`id` filter set; its result is `Payload.Results`. -/
structure NetBoxAPI (σ : Type) where
  DcimSitesList : String → σ → Except ServiceError (List Site) × σ
  DcimSitesCreate : WritableSite → σ → Except ServiceError Site × σ
  DcimSitesPartialUpdate : Int64 → WritableSite → σ → Except ServiceError Site × σ
  DcimSitesDelete : Int64 → σ → Except ServiceError Unit × σ

/-- A request sent to the inventory service. -/
inductive Call where
  | DcimSitesList (id : String)
  | DcimSitesCreate (data : WritableSite)
  | DcimSitesPartialUpdate (id : Int64) (data : WritableSite)
  | DcimSitesDelete (id : Int64)
  deriving DecidableEq

/-- The world outside the adapter: the state of the service and the requests
sent to it so far, oldest first. -/
structure World (σ : Type) where
  remote : σ
  calls : List Call

namespace NetBoxAPI

variable {σ : Type}

/-- Go `client.Dcim.DcimSitesList(params, nil)` with `params.ID = &id`. -/
def list (m : NetBoxAPI σ) (id : String) (w : World σ) :
    Except ServiceError (List Site) × World σ :=
  let r := m.DcimSitesList id w.remote
  (r.1, ⟨r.2, w.calls ++ [Call.DcimSitesList id]⟩)

/-- Go `client.Dcim.DcimSitesCreate(params, nil)` with `params.Data = &data`. -/
def create (m : NetBoxAPI σ) (data : WritableSite) (w : World σ) :
    Except ServiceError Site × World σ :=
  let r := m.DcimSitesCreate data w.remote
  (r.1, ⟨r.2, w.calls ++ [Call.DcimSitesCreate data]⟩)

/-- Go `client.Dcim.DcimSitesPartialUpdate(params, nil)`. -/
def partialUpdate (m : NetBoxAPI σ) (id : Int64) (data : WritableSite) (w : World σ) :
    Except ServiceError Site × World σ :=
  let r := m.DcimSitesPartialUpdate id data w.remote
  (r.1, ⟨r.2, w.calls ++ [Call.DcimSitesPartialUpdate id data]⟩)

/-- Go `client.Dcim.DcimSitesDelete(params, nil)`. -/
def delete (m : NetBoxAPI σ) (id : Int64) (w : World σ) :
    Except ServiceError Unit × World σ :=
  let r := m.DcimSitesDelete id w.remote
  (r.1, ⟨r.2, w.calls ++ [Call.DcimSitesDelete id]⟩)

end NetBoxAPI

/-! ## The adapter -/

section Adapter

variable {σ : Type}

/-- The `for` loop of `resourceNetboxDcimSiteRead` and the `d.SetId("")` that
follows it: the first entry whose formatted ID equals `d.Id()` is copied into
the handle (description, then `*resource.Name`, then `*resource.Slug`) and the
function returns `nil`; when the loop ends without a match the identifier is
cleared. -/
def resourceNetboxDcimSiteReadLoop (d : ResourceData) :
    List Site → Outcome Unit × ResourceData
  | [] => (Outcome.ret () none, d.SetId "")
  | resource :: rest =>
    if strconv.FormatInt resource.ID = d.Id then
      let d := d.Set "description" resource.Description
      match resource.Name with
      | none => (Outcome.panic, d)
      | some name =>
        let d := d.Set "name" name
        match resource.Slug with
        | none => (Outcome.panic, d)
        | some slug => (Outcome.ret () none, d.Set "slug" slug)
    else resourceNetboxDcimSiteReadLoop d rest

def resourceNetboxDcimSiteRead (m : NetBoxAPI σ) (d : ResourceData) (w : World σ) :
    Outcome Unit × ResourceData × World σ :=
  let resourceID := d.Id
  match m.list resourceID w with
  | (Except.error err, w) => (Outcome.ret () (some (Error.service err)), d, w)
  | (Except.ok resources, w) =>
    let r := resourceNetboxDcimSiteReadLoop d resources
    (r.1, r.2, w)

def resourceNetboxDcimSiteCreate (m : NetBoxAPI σ) (d : ResourceData) (w : World σ) :
    Outcome Unit × ResourceData × World σ :=
  let description := d.Get "description"
  let slug := d.Get "slug"
  let name := d.Get "name"
  let data : WritableSite := { Description := description, Slug := slug, Name := name }
  match m.create data w with
  | (Except.error err, w) => (Outcome.ret () (some (Error.service err)), d, w)
  | (Except.ok result, w) =>
    let d := d.SetId (strconv.FormatInt result.ID)
    resourceNetboxDcimSiteRead m d w

def resourceNetboxDcimSiteUpdate (m : NetBoxAPI σ) (d : ResourceData) (w : World σ) :
    Outcome Unit × ResourceData × World σ :=
  let p := strconv.ParseInt d.Id
  match p.2 with
  | some err => (Outcome.ret () (some (Error.parse err)), d, w)
  | none =>
    let id := p.1
    let description := d.Get "description"
    let slug := d.Get "slug"
    let name := d.Get "name"
    let data : WritableSite := { Description := description, Slug := slug, Name := name }
    match m.partialUpdate id data w with
    | (Except.error err, w) => (Outcome.ret () (some (Error.service err)), d, w)
    | (Except.ok _, w) => resourceNetboxDcimSiteRead m d w

def resourceNetboxDcimSiteExists (m : NetBoxAPI σ) (d : ResourceData) (w : World σ) :
    Outcome Bool × ResourceData × World σ :=
  let resourceExist := false
  let id := d.Id
  match m.list id w with
  | (Except.error err, w) => (Outcome.ret resourceExist (some (Error.service err)), d, w)
  | (Except.ok sites, w) =>
    let resourceExist := sites.foldl
      (fun resourceExist site =>
        if strconv.FormatInt site.ID = d.Id then true else resourceExist)
      resourceExist
    (Outcome.ret resourceExist none, d, w)

def resourceNetboxDcimSiteDelete (m : NetBoxAPI σ) (d : ResourceData) (w : World σ) :
    Outcome Unit × ResourceData × World σ :=
  match resourceNetboxDcimSiteExists m d w with
  | (Outcome.panic, d, w) => (Outcome.panic, d, w)
  | (Outcome.ret _ (some err), d, w) => (Outcome.ret () (some err), d, w)
  | (Outcome.ret resourceExists none, d, w) =>
    if !resourceExists then (Outcome.ret () none, d, w)
    else
      let p := strconv.ParseInt d.Id
      match p.2 with
      | some _ =>
        (Outcome.ret () (some (Error.errorf "Unable to convert ID into int64")), d, w)
      | none =>
        let id := p.1
        match m.delete id w with
        | (Except.error err, w) => (Outcome.ret () (some (Error.service err)), d, w)
        | (Except.ok _, w) => (Outcome.ret () none, d, w)

end Adapter

/-! ## An in-memory inventory service

A simple service on which the adapter can be run: it keeps the entries in a
list and hands out consecutive IDs. -/

/-- The state of the in-memory service. -/
structure Store where
  sites : List Site
  nextID : Int64

/-- The entry the in-memory service stores for a request body under an ID. -/
def Store.entry (id : Int64) (data : WritableSite) : Site :=
  { ID := id, Name := some data.Name, Slug := some data.Slug, Description := data.Description }

/-- The in-memory service: list filters on the decimal text of the ID, create
appends an entry under the next ID, partial update and delete act on the
entries with the given ID and fail when there is none. -/
def memService : NetBoxAPI Store where
  DcimSitesList := fun id st =>
    (Except.ok (st.sites.filter (fun s => decide (strconv.FormatInt s.ID = id))), st)
  DcimSitesCreate := fun data st =>
    (Except.ok (Store.entry st.nextID data),
      { sites := st.sites ++ [Store.entry st.nextID data],
        nextID := wrapInt64 (st.nextID.val + 1) })
  DcimSitesPartialUpdate := fun id data st =>
    if st.sites.any (fun s => decide (s.ID = id)) then
      (Except.ok (Store.entry id data),
        { st with sites := st.sites.map (fun s => if s.ID = id then Store.entry id data else s) })
    else (Except.error "not found", st)
  DcimSitesDelete := fun id st =>
    if st.sites.any (fun s => decide (s.ID = id)) then
      (Except.ok (), { st with sites := st.sites.filter (fun s => decide (s.ID ≠ id)) })
    else (Except.error "not found", st)

/-- The `int64` 42. -/
def id42 : Int64 := ⟨42, by decide⟩

/-- An empty in-memory service whose next ID is 42, with no request sent yet. -/
def world42 : World Store := { remote := { sites := [], nextID := id42 }, calls := [] }

/-! ## The validator of the `slug` field -/

namespace regexp

/-- The part of the syntax tree of Go `regexp/syntax` that the pattern of the
slug field parses to: `^` and `$` without the multi-line flag (begin and end of
the whole text), a character class given by its ranges, a bounded repetition
`{min,max}` and concatenation. -/
inductive Regexp where
  | BeginText
  | EndText
  | CharClass (ranges : List (Char × Char))
  | Repeat (min max : Nat) (sub : Regexp)
  | Concat (left right : Regexp)

/-- A position in the text being matched: the number of characters before it
and the characters after it. -/
abbrev Pos : Type := Nat × List Char

/-- The positions reached from `p` by at least `min` and at most `max`
consecutive matches of `f`. -/
def repeatStep (f : Pos → List Pos) : Nat → Nat → Pos → List Pos
  | min, 0, p => if min = 0 then [p] else []
  | min, max + 1, p =>
    (if min = 0 then [p] else []) ++ (f p).flatMap (repeatStep f (min - 1) max)

/-- All positions at which a match of the expression that starts at the given
position can end. -/
def Regexp.step : Regexp → Pos → List Pos
  | Regexp.BeginText, p => if p.1 = 0 then [p] else []
  | Regexp.EndText, p => if p.2 = [] then [p] else []
  | Regexp.CharClass ranges, p =>
    match p.2 with
    | [] => []
    | c :: cs => if ranges.any (fun r => decide (r.1 ≤ c ∧ c ≤ r.2)) then [(p.1 + 1, cs)] else []
  | Regexp.Repeat min max sub, p => repeatStep sub.step min max p
  | Regexp.Concat left right, p => (left.step p).flatMap right.step

/-- Go `re.MatchString(s)`: whether the text contains a match, starting at any
position. -/
def Regexp.MatchString (re : Regexp) (s : String) : Bool :=
  (List.range (s.data.length + 1)).any (fun i => !(re.step (i, s.data.drop i)).isEmpty)

end regexp

/-- The value `regexp.MustCompile("^[-a-zA-Z0-9_]{1,50}$")` in the schema of
`resourceNetboxDcimSite`: begin of text, one to fifty characters of the class
`-`, `a-z`, `A-Z`, `0-9`, `_`, end of text. -/
def slugRegexp : regexp.Regexp :=
  regexp.Regexp.Concat regexp.Regexp.BeginText
    (regexp.Regexp.Concat
      (regexp.Regexp.Repeat 1 50
        (regexp.Regexp.CharClass [('-', '-'), ('a', 'z'), ('A', 'Z'), ('0', '9'), ('_', '_')]))
      regexp.Regexp.EndText)

/-- The `ValidateFunc` of the field `slug`, `validation.StringMatch(re, msg)`:
it reports an error exactly when `re.MatchString(v)` is false. The result is
whether the value is accepted. -/
def slugValidateFunc (v : String) : Bool := slugRegexp.MatchString v

/-- The declared record `{name: "DC1", slug: "dc1", description: ""}` in a
handle that has no identifier yet. -/
def dc1 : ResourceData := { id := "", description := "", name := "DC1", slug := "dc1" }

/-- The entry the in-memory service stores for `dc1` under the ID 42. -/
def site42 : Site := Store.entry id42 { Description := "", Slug := "dc1", Name := "DC1" }

/-- An in-memory service that holds `site42`, with no request sent yet. -/
def worldWith42 : World Store :=
  { remote := { sites := [site42], nextID := wrapInt64 43 }, calls := [] }

/-! ## Notions used to state the properties -/

/-- The number a sequence of decimal digits denotes when it follows digits
that denote `n`. -/
def decimalValueFrom (n : Nat) (cs : List Char) : Nat :=
  cs.foldl (fun n c => n * 10 + (c.toNat - '0'.toNat)) n

/-- The valid base-10 64-bit signed integer strings, said without the parser:
an optional sign `+` or `-`, then one or more ASCII digits, denoting a number
from `-2^63` to `2^63 - 1`. -/
def isInt64String (s : String) : Bool :=
  match s.data with
  | [] => false
  | c :: cs =>
    let digits := if c = '+' ∨ c = '-' then cs else c :: cs
    !digits.isEmpty && digits.all (fun x => decide ('0' ≤ x ∧ x ≤ '9')) &&
      (if c = '-' then decide (decimalValueFrom 0 digits ≤ 9223372036854775808)
       else decide (decimalValueFrom 0 digits < 9223372036854775808))

/-- Every partial-update or delete request among `sent` is addressed to the
number `strconv.ParseInt` reads from the identifier `id`. `Update` and `Delete`
send such a request before anything writes to the handle, so `id` is the
identifier the handle holds when the request is sent. -/
def RequestsUseParsedId (id : String) (sent : List Call) : Prop :=
  ∀ c ∈ sent,
    match c with
    | Call.DcimSitesPartialUpdate n _ => strconv.ParseInt id = (n, none)
    | Call.DcimSitesDelete n => strconv.ParseInt id = (n, none)
    | _ => True

/-- A service that removes an entry on delete: a list call succeeds and leaves
the state of the service as it is, a delete request for a listed entry
succeeds, and after a successful delete of `n` a list call filtered on the
text of `n` returns no entry with the ID `n`. -/
structure RemovesOnDelete {σ : Type} (m : NetBoxAPI σ) : Prop where
  list_ok : ∀ id s, ∃ l, m.DcimSitesList id s = (Except.ok l, s)
  delete_ok : ∀ id s l e, m.DcimSitesList id s = (Except.ok l, s) → e ∈ l →
    ∃ s1, m.DcimSitesDelete e.ID s = (Except.ok (), s1)
  delete_removes : ∀ n s s1, m.DcimSitesDelete n s = (Except.ok (), s1) →
    ∀ l, m.DcimSitesList (strconv.FormatInt n) s1 = (Except.ok l, s1) → ∀ e ∈ l, e.ID ≠ n

/-! ### Formatting and parsing are inverse on `int64` -/

namespace strconv

theorem digitVal_digitChar (d : Nat) (h : d < 10) : digitVal (digitChar d) = some d := by
  interval_cases d <;> decide

theorem digitChar_ne_sign (d : Nat) (h : d < 10) :
    digitChar d ≠ '+' ∧ digitChar d ≠ '-' := by
  interval_cases d <;> decide

theorem ParseUintLoop_digit (s0 : String) (d n : Nat) (cs : List Char) (hd : d < 10)
    (hn : n * 10 + d ≤ maxUint64) :
    ParseUintLoop s0 (digitChar d :: cs) n = ParseUintLoop s0 cs (n * 10 + d) := by
  unfold maxUint64 at hn
  rw [ParseUintLoop, digitVal_digitChar d hd]
  simp only [maxUint64]
  have h1 : ¬ d ≥ 10 := by omega
  have h2 : ¬ n ≥ 18446744073709551615 / 10 + 1 := by omega
  have h3 : n * 10 % 18446744073709551616 = n * 10 := Nat.mod_eq_of_lt (by omega)
  have h4 : (n * 10 + d) % 18446744073709551616 = n * 10 + d := Nat.mod_eq_of_lt (by omega)
  simp only [h1, h2, h3, h4, if_false]
  rw [if_neg (by omega)]

/-- Parsing what `formatBits` wrote continues from the value written. -/
theorem ParseUintLoop_formatBits (s0 : String) :
    ∀ (fuel u : Nat) (a : List Char), u < 10 ^ fuel → u ≤ maxUint64 →
      ParseUintLoop s0 (formatBits fuel u a) 0 = ParseUintLoop s0 a u := by
  intro fuel
  induction fuel with
  | zero =>
    intro u a hu _
    have : u = 0 := by simpa using hu
    subst this
    rfl
  | succ fuel ih =>
    intro u a hu hmax
    rw [formatBits]
    split
    · rename_i h10
      have := ParseUintLoop_digit s0 u 0 a h10 (by omega)
      simpa using this
    · rename_i h10
      have hq : u / 10 < 10 ^ fuel := by
        rw [Nat.div_lt_iff_lt_mul (by norm_num)]
        rw [pow_succ] at hu
        exact hu
      rw [ih (u / 10) _ hq (by omega)]
      have := ParseUintLoop_digit s0 (u % 10) (u / 10) a (Nat.mod_lt _ (by norm_num))
        (by omega)
      rw [this]
      congr 1
      omega

/-- The text `formatBits` writes starts with a digit. -/
theorem formatBits_head (fuel u : Nat) (a : List Char) :
    ∃ d rest, d < 10 ∧ formatBits (fuel + 1) u a = digitChar d :: rest := by
  induction fuel generalizing u a with
  | zero =>
    rw [formatBits]
    split
    · exact ⟨u, a, by omega, rfl⟩
    · exact ⟨u % 10, a, Nat.mod_lt _ (by norm_num), rfl⟩
  | succ fuel ih =>
    rw [formatBits]
    split
    · exact ⟨u, a, by omega, rfl⟩
    · exact ih _ _

theorem formatBits_head20 (u : Nat) :
    ∃ d rest, d < 10 ∧ formatBits 20 u [] = digitChar d :: rest :=
  formatBits_head 19 u []

theorem ParseUint_formatBits (u : Nat) (hmax : u ≤ maxUint64) :
    ParseUint (String.mk (formatBits 20 u [])) = (u, none) := by
  obtain ⟨d, rest, _, hd⟩ := formatBits_head20 u
  have h := ParseUintLoop_formatBits (String.mk (formatBits 20 u [])) 20 u []
    (by unfold maxUint64 at hmax; norm_num; omega) hmax
  unfold ParseUint
  simp only
  rw [hd] at h ⊢
  simp only
  rw [h]
  rfl

theorem wrapInt64_neg_wrapInt64 (v : Int) (hlo : -9223372036854775808 ≤ v) (hneg : v < 0) :
    (wrapInt64 (-(wrapInt64 ((-v).toNat : Int)).val)).val = v := by
  unfold wrapInt64
  simp only
  omega

theorem wrapInt64_toNat (v : Int) (hhi : v < 9223372036854775808) (hpos : ¬ v < 0) :
    (wrapInt64 (v.toNat : Int)).val = v := by
  unfold wrapInt64
  simp only
  omega

/-- Parsing the decimal text of an `int64` succeeds and gives the number back. -/
theorem ParseInt_FormatInt (i : Int64) : ParseInt (FormatInt i) = (i, none) := by
  obtain ⟨v, hlo, hhi⟩ := i
  unfold FormatInt
  by_cases hneg : v < 0
  · simp only [hneg, if_true]
    have hu : (18446744073709551616 - toUint64 ⟨v, hlo, hhi⟩) % 18446744073709551616
        = (-v).toNat := by
      unfold toUint64
      simp only
      omega
    rw [hu]
    have hp := ParseUint_formatBits (-v).toNat (by unfold maxUint64; omega)
    have hle : ¬ (9223372036854775808 < (-v).toNat) := by omega
    unfold ParseInt
    simp only [hp, Option.filter]
    simp only [decide_True, Bool.not_true, Bool.false_eq_true, false_and, if_false, true_and,
      gt_iff_lt, if_true, ite_true, reduceCtorEq, ite_self, hp, hle]
    exact Prod.ext (Subtype.ext (wrapInt64_neg_wrapInt64 v hlo hneg)) rfl
  · simp only [hneg, if_false]
    have hu : toUint64 ⟨v, hlo, hhi⟩ = v.toNat := by
      unfold toUint64
      simp only
      omega
    rw [hu]
    have hp := ParseUint_formatBits v.toNat (by unfold maxUint64; omega)
    obtain ⟨d, rest, hd10, hd⟩ := formatBits_head20 v.toNat
    obtain ⟨hplus, hminus⟩ := digitChar_ne_sign d hd10
    have hlt : ¬ (v.toNat ≥ 9223372036854775808) := by omega
    unfold ParseInt
    simp only [hd] at hp ⊢
    simp only [hplus, hminus, if_false, hp, Option.filter]
    simp only [decide_False, Bool.not_false, true_and, hlt, if_false, Bool.false_eq_true,
      false_and, ite_false]
    exact Prod.ext (Subtype.ext (wrapInt64_toNat v hhi hneg)) rfl

/-! ### What `ParseInt` accepts -/

theorem digitVal_of_digit (c : Char) (h : '0' ≤ c ∧ c ≤ '9') :
    digitVal c = some (c.toNat - '0'.toNat) ∧ c.toNat - '0'.toNat < 10 := by
  refine ⟨by unfold digitVal; rw [if_pos h], ?_⟩
  have h9 : c.toNat ≤ 57 := h.2
  have h0 : '0'.toNat = 48 := rfl
  omega

theorem digitVal_of_not_digit (c : Char) (h : ¬ ('0' ≤ c ∧ c ≤ '9')) :
    digitVal c = none ∨ ∃ d, digitVal c = some d ∧ d ≥ 10 := by
  unfold digitVal
  rw [if_neg h]
  split
  · exact Or.inr ⟨_, rfl, Nat.le_add_left _ _⟩
  · exact Or.inl rfl

theorem decimalValueFrom_ge (cs : List Char) : ∀ n, n ≤ decimalValueFrom n cs := by
  induction cs with
  | nil => intro n; exact Nat.le_refl _
  | cons c cs ih =>
    intro n
    have h := ih (n * 10 + (c.toNat - '0'.toNat))
    have hdef : decimalValueFrom n (c :: cs) =
        decimalValueFrom (n * 10 + (c.toNat - '0'.toNat)) cs := rfl
    rw [hdef]
    omega

/-- The loop of `ParseUint` returns the number denoted when all characters are
digits and the number fits a `uint64`; otherwise it returns the syntax error
with the value 0 or the range error with the value `maxUint64`. -/
theorem ParseUintLoop_spec (s0 : String) (cs : List Char) :
    ∀ n, n ≤ maxUint64 →
      ((cs.all (fun x => decide ('0' ≤ x ∧ x ≤ '9')) = true ∧
          decimalValueFrom n cs ≤ maxUint64) ∧
        ParseUintLoop s0 cs n = (decimalValueFrom n cs, none)) ∨
      (¬ (cs.all (fun x => decide ('0' ≤ x ∧ x ≤ '9')) = true ∧
          decimalValueFrom n cs ≤ maxUint64) ∧
        (ParseUintLoop s0 cs n = (0, some (syntaxError "ParseUint" s0)) ∨
          ParseUintLoop s0 cs n = (maxUint64, some (rangeError "ParseUint" s0)))) := by
  induction cs with
  | nil =>
    intro n hn
    exact Or.inl ⟨⟨rfl, hn⟩, rfl⟩
  | cons c cs ih =>
    intro n hn
    have hdef : decimalValueFrom n (c :: cs) =
        decimalValueFrom (n * 10 + (c.toNat - '0'.toNat)) cs := rfl
    have hge := decimalValueFrom_ge cs (n * 10 + (c.toNat - '0'.toNat))
    rw [hdef, List.all_cons, Bool.and_eq_true, decide_eq_true_eq]
    by_cases hc : '0' ≤ c ∧ c ≤ '9'
    · obtain ⟨hdv, hd10⟩ := digitVal_of_digit c hc
      rw [ParseUintLoop, hdv]
      simp only
      rw [if_neg (by omega)]
      unfold maxUint64 at hn hge ⊢
      by_cases hcut : n ≥ 18446744073709551615 / 10 + 1
      · rw [if_pos hcut]
        exact Or.inr ⟨fun h => by omega, Or.inr rfl⟩
      · rw [if_neg hcut]
        have h10 : n * 10 % 18446744073709551616 = n * 10 := Nat.mod_eq_of_lt (by omega)
        rw [h10]
        by_cases hov : n * 10 + (c.toNat - '0'.toNat) ≤ 18446744073709551615
        · have h1 : (n * 10 + (c.toNat - '0'.toNat)) % 18446744073709551616 =
              n * 10 + (c.toNat - '0'.toNat) := Nat.mod_eq_of_lt (by omega)
          rw [h1, if_neg (by omega)]
          rcases ih (n * 10 + (c.toNat - '0'.toNat)) hov with ⟨⟨ha, hv⟩, hr⟩ | ⟨hnot, hr⟩
          · exact Or.inl ⟨⟨⟨hc, ha⟩, hv⟩, hr⟩
          · exact Or.inr ⟨fun h => hnot ⟨h.1.2, h.2⟩, hr⟩
        · rw [if_pos (by omega)]
          exact Or.inr ⟨fun h => by omega, Or.inr rfl⟩
    · right
      refine ⟨fun h => hc h.1.1, Or.inl ?_⟩
      rw [ParseUintLoop]
      rcases digitVal_of_not_digit c hc with h | ⟨d, h, hd⟩
      · rw [h]
      · rw [h]
        simp only
        rw [if_pos hd]

/-- After the sign: `ParseInt` succeeds exactly when there is at least one
character, all characters are digits and the number denoted is within the
bound for the sign. -/
theorem ParseInt_tail_spec (s0 : String) ( neg : Bool) (digits : List Char) :
    ((match (ParseUint (String.mk digits)).2.filter
          (fun err : NumError => decide (err.Err ≠ ErrKind.ErrRange)) with
      | some err => (wrapInt64 0, some { err with Func := "ParseInt", Num := s0 })
      | none =>
        if !neg ∧ (ParseUint (String.mk digits)).1 ≥ 9223372036854775808 then
          (wrapInt64 9223372036854775807, some (rangeError "ParseInt" s0))
        else if neg ∧ (ParseUint (String.mk digits)).1 > 9223372036854775808 then
          (wrapInt64 (-9223372036854775808), some (rangeError "ParseInt" s0))
        else (if neg then wrapInt64 (-(wrapInt64 (ParseUint (String.mk digits)).1).val)
          else wrapInt64 (ParseUint (String.mk digits)).1, none)).2 = none) ↔
      ((!digits.isEmpty && digits.all (fun x => decide ('0' ≤ x ∧ x ≤ '9')) &&
        (if neg then decide (decimalValueFrom 0 digits ≤ 9223372036854775808)
         else decide (decimalValueFrom 0 digits < 9223372036854775808))) = true) := by
  cases digits with
  | nil =>
    have hP : ParseUint (String.mk []) = (0, some (syntaxError "ParseUint" (String.mk []))) := rfl
    rw [hP]
    simp [Option.filter, syntaxError]
  | cons c cs =>
    have hP : ParseUint (String.mk (c :: cs)) = ParseUintLoop (String.mk (c :: cs)) (c :: cs) 0 :=
      rfl
    rw [hP]
    have hspec := ParseUintLoop_spec (String.mk (c :: cs)) (c :: cs) 0 (Nat.zero_le _)
    rcases hspec with ⟨⟨hall, hv⟩, hr⟩ | ⟨hnot, hr | hr⟩
    · rw [hr]
      simp only [Option.filter, List.isEmpty_cons, Bool.not_false, Bool.true_and, hall]
      cases neg with
      | true =>
        simp only [Bool.not_true, Bool.false_eq_true, false_and, if_false, true_and, if_true]
        by_cases hb : decimalValueFrom 0 (c :: cs) > 9223372036854775808
        · rw [if_pos hb]
          simp only [decide_eq_true_eq]
          constructor
          · intro h; exact absurd h (by simp)
          · intro h; omega
        · rw [if_neg hb]
          simp only [decide_eq_true_eq, true_iff]
          omega
      | false =>
        simp only [Bool.not_false, true_and, Bool.false_eq_true, false_and, if_false]
        by_cases hb : decimalValueFrom 0 (c :: cs) ≥ 9223372036854775808
        · rw [if_pos hb]
          simp only [decide_eq_true_eq]
          constructor
          · intro h; exact absurd h (by simp)
          · intro h; omega
        · rw [if_neg hb]
          simp only [decide_eq_true_eq, true_iff]
          omega
    · rw [hr]
      have hfalse : ¬ ((!(c :: cs).isEmpty && (c :: cs).all (fun x => decide ('0' ≤ x ∧ x ≤ '9')) &&
          (if neg then decide (decimalValueFrom 0 (c :: cs) ≤ 9223372036854775808)
           else decide (decimalValueFrom 0 (c :: cs) < 9223372036854775808))) = true) := by
        intro h
        rw [Bool.and_eq_true, Bool.and_eq_true] at h
        apply hnot
        refine ⟨h.1.2, ?_⟩
        unfold maxUint64
        cases neg with
        | true => have := h.2; simp only [if_true, decide_eq_true_eq] at this; omega
        | false =>
          have := h.2
          simp only [Bool.false_eq_true, if_false, decide_eq_true_eq] at this
          omega
      simp only [Option.filter, syntaxError]
      constructor
      · intro h; exact absurd h (by simp)
      · intro h; exact absurd h hfalse
    · rw [hr]
      have hfalse : ¬ ((!(c :: cs).isEmpty && (c :: cs).all (fun x => decide ('0' ≤ x ∧ x ≤ '9')) &&
          (if neg then decide (decimalValueFrom 0 (c :: cs) ≤ 9223372036854775808)
           else decide (decimalValueFrom 0 (c :: cs) < 9223372036854775808))) = true) := by
        intro h
        rw [Bool.and_eq_true, Bool.and_eq_true] at h
        apply hnot
        refine ⟨h.1.2, ?_⟩
        unfold maxUint64
        cases neg with
        | true => have := h.2; simp only [if_true, decide_eq_true_eq] at this; omega
        | false =>
          have := h.2
          simp only [Bool.false_eq_true, if_false, decide_eq_true_eq] at this
          omega
      constructor
      · intro h
        exfalso
        revert h
        cases neg <;> simp [Option.filter, rangeError, maxUint64]
      · intro h; exact absurd h hfalse

/-- The strings `ParseInt` accepts are the valid base-10 64-bit signed
integer strings. -/
theorem ParseInt_ok_iff (s : String) : (ParseInt s).2 = none ↔ isInt64String s = true := by
  unfold ParseInt isInt64String
  cases hd : s.data with
  | nil => simp [syntaxError]
  | cons c cs =>
    simp only
    by_cases hplus : c = '+'
    · subst hplus
      have := ParseInt_tail_spec s false cs
      simpa using this
    · by_cases hminus : c = '-'
      · subst hminus
        have := ParseInt_tail_spec s true cs
        simpa using this
      · have hs : s = String.mk (c :: cs) := by
          cases s
          simp only at hd
          rw [hd]
        have := ParseInt_tail_spec s false (c :: cs)
        rw [← hs] at this
        simpa [hplus, hminus] using this

/-- Injectivity of `FormatInt`: distinct IDs have distinct decimal texts. -/
theorem FormatInt_injective {i j : Int64} (h : FormatInt i = FormatInt j) : i = j := by
  have hi := ParseInt_FormatInt i
  rw [h, ParseInt_FormatInt j] at hi
  exact (Prod.mk.inj hi).1.symm

/-- No `int64` formats to the empty string. -/
theorem FormatInt_ne_empty (i : Int64) : FormatInt i ≠ "" := by
  intro h
  have hp := ParseInt_FormatInt i
  rw [h] at hp
  have : (ParseInt "").2 = none := by rw [hp]
  exact absurd this (by decide)

/-- A string that parses to `n` but is not the text `FormatInt` writes for `n`
is the text of no `int64` at all. -/
theorem FormatInt_ne_of_ParseInt {s : String} {n : Int64}
    (hp : ParseInt s = (n, none)) (hs : s ≠ FormatInt n) (k : Int64) : FormatInt k ≠ s := by
  intro hk
  have h := ParseInt_FormatInt k
  rw [hk, hp] at h
  have : n = k := (Prod.mk.inj h).1
  subst this
  exact hs hk.symm

/-- A string on which `ParseInt` fails is the text of no `int64`. -/
theorem FormatInt_ne_of_ParseInt_error {s : String} (hp : (ParseInt s).2 ≠ none) (k : Int64) :
    FormatInt k ≠ s := by
  intro hk
  apply hp
  rw [← hk, ParseInt_FormatInt]

end strconv

/-! ## The slug validator -/

namespace regexp

/-- The ranges of the class `[-a-zA-Z0-9_]`. -/
theorem slugClass_any (c : Char) :
    ([('-', '-'), ('a', 'z'), ('A', 'Z'), ('0', '9'), ('_', '_')].any
        (fun r => decide (r.1 ≤ c ∧ c ≤ r.2)) = true) ↔
      (('a' ≤ c ∧ c ≤ 'z') ∨ ('A' ≤ c ∧ c ≤ 'Z') ∨ ('0' ≤ c ∧ c ≤ '9') ∨ c = '-' ∨ c = '_') := by
  have h1 : ('-' ≤ c ∧ c ≤ '-') ↔ c = '-' :=
    ⟨fun h => Char.le_antisymm h.2 h.1, fun h => by subst h; exact ⟨Char.le_refl _, Char.le_refl _⟩⟩
  have h2 : ('_' ≤ c ∧ c ≤ '_') ↔ c = '_' :=
    ⟨fun h => Char.le_antisymm h.2 h.1, fun h => by subst h; exact ⟨Char.le_refl _, Char.le_refl _⟩⟩
  simp only [List.any_cons, List.any_nil, Bool.or_false, Bool.or_eq_true, decide_eq_true_eq,
    h1, h2]
  constructor
  · rintro (h | h | h | h | h)
    · exact Or.inr (Or.inr (Or.inr (Or.inl h)))
    · exact Or.inl h
    · exact Or.inr (Or.inl h)
    · exact Or.inr (Or.inr (Or.inl h))
    · exact Or.inr (Or.inr (Or.inr (Or.inr h)))
  · rintro (h | h | h | h | h)
    · exact Or.inr (Or.inl h)
    · exact Or.inr (Or.inr (Or.inl h))
    · exact Or.inr (Or.inr (Or.inr (Or.inl h)))
    · exact Or.inl h
    · exact Or.inr (Or.inr (Or.inr (Or.inr h)))

/-- A repetition of a character class can end at the end of the text exactly
when the number of remaining characters is within the bounds and all of them
are in the class. -/
theorem repeatStep_class_end (ranges : List (Char × Char)) :
    ∀ (max min i : Nat) (cs : List Char),
      (∃ q ∈ repeatStep (Regexp.CharClass ranges).step min max (i, cs), q.2 = []) ↔
        (min ≤ cs.length ∧ cs.length ≤ max ∧
          ∀ c ∈ cs, ranges.any (fun r => decide (r.1 ≤ c ∧ c ≤ r.2)) = true) := by
  intro max
  induction max with
  | zero =>
    intro min i cs
    rw [repeatStep]
    by_cases hmin : min = 0
    · subst hmin
      cases cs with
      | nil => simp
      | cons c cs => simp
    · simp only [hmin, if_false, List.not_mem_nil, false_and, exists_false, false_iff]
      omega
  | succ max ih =>
    intro min i cs
    rw [repeatStep]
    cases cs with
    | nil =>
      simp only [Regexp.step, List.flatMap_nil, List.append_nil, List.length_nil,
        List.not_mem_nil, false_implies, implies_true, and_true, Nat.le_zero_eq]
      by_cases hmin : min = 0 <;> simp [hmin]
    | cons c cs =>
      have hleft : ¬ ∃ q ∈ (if min = 0 then [((i, c :: cs) : Pos)] else []), q.2 = [] := by
        rintro ⟨q, hq, hq2⟩
        split at hq
        · rw [List.mem_singleton] at hq
          subst hq
          exact absurd hq2 (by simp)
        · exact absurd hq (List.not_mem_nil _)
      by_cases hc : ranges.any (fun r => decide (r.1 ≤ c ∧ c ≤ r.2)) = true
      · have hstep : (Regexp.CharClass ranges).step (i, c :: cs) = [(i + 1, cs)] := by
          simp only [Regexp.step, hc, if_true]
        rw [hstep]
        simp only [List.flatMap_cons, List.flatMap_nil, List.append_nil]
        constructor
        · rintro ⟨q, hq, hq2⟩
          rw [List.mem_append] at hq
          rcases hq with hq | hq
          · exact absurd ⟨q, hq, hq2⟩ hleft
          · obtain ⟨h1, h2, h3⟩ := (ih (min - 1) (i + 1) cs).1 ⟨q, hq, hq2⟩
            refine ⟨by simp only [List.length_cons]; omega,
              by simp only [List.length_cons]; omega, ?_⟩
            intro x hx
            rcases List.mem_cons.1 hx with hx | hx
            · subst hx; exact hc
            · exact h3 x hx
        · rintro ⟨h1, h2, h3⟩
          simp only [List.length_cons] at h1 h2
          obtain ⟨q, hq, hq2⟩ := (ih (min - 1) (i + 1) cs).2
            ⟨by omega, by omega, fun x hx => h3 x (List.mem_cons_of_mem _ hx)⟩
          exact ⟨q, List.mem_append_right _ hq, hq2⟩
      · have hstep : (Regexp.CharClass ranges).step (i, c :: cs) = [] := by
          simp only [Regexp.step, hc, if_false]
          rfl
        rw [hstep]
        simp only [List.flatMap_nil, List.append_nil]
        constructor
        · intro h
          exact absurd h hleft
        · rintro ⟨_, _, h3⟩
          exact absurd (h3 c (List.mem_cons_self _ _)) hc

end regexp

/-- A match of the slug pattern starts at the begin of the text and consumes
all of it: between one and fifty characters, each of the class. -/
theorem slugRegexp_step_ne_nil (i : Nat) (cs : List Char) :
    (slugRegexp.step (i, cs)).isEmpty = false ↔
      (i = 0 ∧ 1 ≤ cs.length ∧ cs.length ≤ 50 ∧
        ∀ c ∈ cs, ('a' ≤ c ∧ c ≤ 'z') ∨ ('A' ≤ c ∧ c ≤ 'Z') ∨ ('0' ≤ c ∧ c ≤ '9') ∨
          c = '-' ∨ c = '_') := by
  have hrep := regexp.repeatStep_class_end
    [('-', '-'), ('a', 'z'), ('A', 'Z'), ('0', '9'), ('_', '_')] 50 1 i cs
  simp only [regexp.slugClass_any] at hrep
  rw [← hrep, List.isEmpty_eq_false_iff_exists_mem]
  have hstep : slugRegexp.step (i, cs) =
      (if i = 0 then [((i, cs) : regexp.Pos)] else []).flatMap (fun p =>
        (regexp.repeatStep (regexp.Regexp.CharClass
          [('-', '-'), ('a', 'z'), ('A', 'Z'), ('0', '9'), ('_', '_')]).step 1 50 p).flatMap
          (fun q => if q.2 = [] then [q] else [])) := rfl
  rw [hstep]
  constructor
  · rintro ⟨x, hx⟩
    obtain ⟨p, hp, hx1⟩ := List.mem_flatMap.1 hx
    obtain ⟨q, hq, hx2⟩ := List.mem_flatMap.1 hx1
    by_cases hi : i = 0
    · rw [if_pos hi, List.mem_singleton] at hp
      subst hp
      by_cases hq2 : q.2 = []
      · exact ⟨hi, q, hq, hq2⟩
      · rw [if_neg hq2] at hx2
        exact absurd hx2 (List.not_mem_nil _)
    · rw [if_neg hi] at hp
      exact absurd hp (List.not_mem_nil _)
  · rintro ⟨hi, q, hq, hq2⟩
    refine ⟨q, List.mem_flatMap.2 ⟨(i, cs), ?_, List.mem_flatMap.2 ⟨q, hq, ?_⟩⟩⟩
    · rw [if_pos hi]
      exact List.mem_singleton_self _
    · rw [if_pos hq2]
      exact List.mem_singleton_self _

/-- Claim C8: the validator of the field `slug` accepts a string if and only if
its length is between 1 and 50 and every character is an ASCII letter, an ASCII
digit, `-` or `_`. In particular `dc1` is accepted, and `bad slug!`, the empty
string, a text with a trailing newline and a text of 51 characters are rejected. -/
theorem slugValidateFunc_accepts_iff :
    (∀ s : String, slugValidateFunc s = true ↔
      (1 ≤ s.length ∧ s.length ≤ 50 ∧
        ∀ c ∈ s.data, ('a' ≤ c ∧ c ≤ 'z') ∨ ('A' ≤ c ∧ c ≤ 'Z') ∨ ('0' ≤ c ∧ c ≤ '9') ∨
          c = '-' ∨ c = '_')) ∧
    slugValidateFunc "dc1" = true ∧
    slugValidateFunc "bad slug!" = false ∧
    slugValidateFunc "" = false ∧
    slugValidateFunc "dc1\n" = false ∧
    slugValidateFunc "012345678901234567890123456789012345678901234567890" = false := by
  refine ⟨?_, by decide, by decide, by decide, by decide, by decide⟩
  intro s
  unfold slugValidateFunc regexp.Regexp.MatchString
  rw [List.any_eq_true]
  have hlen : s.length = s.data.length := rfl
  rw [hlen]
  constructor
  · rintro ⟨i, _, hi⟩
    rw [Bool.not_eq_true'] at hi
    obtain ⟨hi0, h⟩ := (slugRegexp_step_ne_nil i (s.data.drop i)).1 hi
    subst hi0
    simpa using h
  · intro h
    refine ⟨0, List.mem_range.2 (Nat.succ_pos _), ?_⟩
    rw [Bool.not_eq_true']
    exact (slugRegexp_step_ne_nil 0 (s.data.drop 0)).2 ⟨rfl, by simpa using h⟩

/-! ## The adapter: auxiliary facts -/

section AdapterLemmas

variable {σ : Type}

open strconv

theorem ResourceData.Set_fields (d : ResourceData) (desc name slug : String) :
    ((d.Set "description" desc).Set "name" name).Set "slug" slug =
      { id := d.id, description := desc, name := name, slug := slug } := rfl

theorem ResourceData.Get_fields (d : ResourceData) :
    d.Get "description" = d.description ∧ d.Get "name" = d.name ∧ d.Get "slug" = d.slug :=
  ⟨rfl, rfl, rfl⟩

/-- Without a matching entry the loop of `Read` copies nothing and the
identifier is cleared. -/
theorem ReadLoop_no_match (d : ResourceData) (resources : List Site)
    (hno : ∀ e ∈ resources, FormatInt e.ID ≠ d.id) :
    resourceNetboxDcimSiteReadLoop d resources = (Outcome.ret () none, { d with id := "" }) := by
  induction resources with
  | nil => rfl
  | cons e rest ih =>
    rw [resourceNetboxDcimSiteReadLoop]
    have h : ¬ FormatInt e.ID = d.Id := hno e (List.mem_cons_self _ _)
    rw [if_neg h]
    exact ih (fun x hx => hno x (List.mem_cons_of_mem _ hx))

/-- With a matching entry, all matching entries carrying the same non-nil
fields, the loop of `Read` copies those fields and keeps the identifier. -/
theorem ReadLoop_match (d : ResourceData) (desc name slug : String) (resources : List Site)
    (hex : ∃ e ∈ resources, FormatInt e.ID = d.id)
    (hall : ∀ e ∈ resources, FormatInt e.ID = d.id →
      e.Name = some name ∧ e.Slug = some slug ∧ e.Description = desc) :
    resourceNetboxDcimSiteReadLoop d resources =
      (Outcome.ret () none, { id := d.id, description := desc, name := name, slug := slug }) := by
  induction resources with
  | nil =>
    obtain ⟨e, he, _⟩ := hex
    exact absurd he (List.not_mem_nil _)
  | cons e rest ih =>
    rw [resourceNetboxDcimSiteReadLoop]
    by_cases h : FormatInt e.ID = d.Id
    · obtain ⟨hn, hs, hd⟩ := hall e (List.mem_cons_self _ _) h
      rw [if_pos h]
      simp only [hn, hs, hd]
      rw [ResourceData.Set_fields]
    · rw [if_neg h]
      apply ih
      · obtain ⟨x, hx, hxe⟩ := hex
        rcases List.mem_cons.1 hx with hx | hx
        · subst hx
          exact absurd hxe h
        · exact ⟨x, hx, hxe⟩
      · exact fun x hx => hall x (List.mem_cons_of_mem _ hx)

/-- The identifier after the loop of `Read` is the one before or empty. -/
theorem ReadLoop_id (d : ResourceData) (resources : List Site) :
    (resourceNetboxDcimSiteReadLoop d resources).2.id = d.id ∨
      (resourceNetboxDcimSiteReadLoop d resources).2.id = "" := by
  induction resources with
  | nil => exact Or.inr rfl
  | cons e rest ih =>
    rw [resourceNetboxDcimSiteReadLoop]
    by_cases h : FormatInt e.ID = d.Id
    · rw [if_pos h]
      left
      cases e.Name with
      | none => rfl
      | some name =>
        cases e.Slug with
        | none => rfl
        | some slug => rfl
    · rw [if_neg h]
      exact ih

/-- The flag computed by the loop of `Exists`. -/
theorem ExistsLoop_eq_true (id : String) (sites : List Site) (b : Bool) :
    sites.foldl (fun resourceExist site =>
        if FormatInt site.ID = id then true else resourceExist) b = true ↔
      (b = true ∨ ∃ e ∈ sites, FormatInt e.ID = id) := by
  induction sites generalizing b with
  | nil => simp
  | cons e rest ih =>
    rw [List.foldl_cons, ih]
    by_cases h : FormatInt e.ID = id
    · simp [h]
    · simp [h]

theorem Read_eq (m : NetBoxAPI σ) (d : ResourceData) (w : World σ) (resources : List Site)
    (s1 : σ) (hlist : m.DcimSitesList d.id w.remote = (Except.ok resources, s1)) :
    resourceNetboxDcimSiteRead m d w =
      ((resourceNetboxDcimSiteReadLoop d resources).1,
        (resourceNetboxDcimSiteReadLoop d resources).2,
        ⟨s1, w.calls ++ [Call.DcimSitesList d.id]⟩) := by
  unfold resourceNetboxDcimSiteRead NetBoxAPI.list ResourceData.Id
  simp only [hlist]

theorem Read_error (m : NetBoxAPI σ) (d : ResourceData) (w : World σ) (err : ServiceError)
    (s1 : σ) (hlist : m.DcimSitesList d.id w.remote = (Except.error err, s1)) :
    resourceNetboxDcimSiteRead m d w =
      (Outcome.ret () (some (Error.service err)), d,
        ⟨s1, w.calls ++ [Call.DcimSitesList d.id]⟩) := by
  unfold resourceNetboxDcimSiteRead NetBoxAPI.list ResourceData.Id
  simp only [hlist]

theorem Exists_eq (m : NetBoxAPI σ) (d : ResourceData) (w : World σ) (sites : List Site)
    (s1 : σ) (hlist : m.DcimSitesList d.id w.remote = (Except.ok sites, s1)) :
    resourceNetboxDcimSiteExists m d w =
      (Outcome.ret (sites.foldl (fun resourceExist site =>
          if FormatInt site.ID = d.id then true else resourceExist) false) none, d,
        ⟨s1, w.calls ++ [Call.DcimSitesList d.id]⟩) := by
  unfold resourceNetboxDcimSiteExists NetBoxAPI.list ResourceData.Id
  simp only [hlist]

theorem Exists_error (m : NetBoxAPI σ) (d : ResourceData) (w : World σ) (err : ServiceError)
    (s1 : σ) (hlist : m.DcimSitesList d.id w.remote = (Except.error err, s1)) :
    resourceNetboxDcimSiteExists m d w =
      (Outcome.ret false (some (Error.service err)), d,
        ⟨s1, w.calls ++ [Call.DcimSitesList d.id]⟩) := by
  unfold resourceNetboxDcimSiteExists NetBoxAPI.list ResourceData.Id
  simp only [hlist]

theorem Update_parse_error_eq (m : NetBoxAPI σ) (d : ResourceData) (w : World σ)
    (err : NumError) (hp : (ParseInt d.id).2 = some err) :
    resourceNetboxDcimSiteUpdate m d w = (Outcome.ret () (some (Error.parse err)), d, w) := by
  unfold resourceNetboxDcimSiteUpdate ResourceData.Id
  simp only [hp]

theorem Update_service_error_eq (m : NetBoxAPI σ) (d : ResourceData) (w : World σ)
    (n : Int64) (hp : ParseInt d.id = (n, none)) (err : ServiceError) (s1 : σ)
    (hupd : m.DcimSitesPartialUpdate n
        { Description := d.description, Slug := d.slug, Name := d.name } w.remote =
      (Except.error err, s1)) :
    resourceNetboxDcimSiteUpdate m d w =
      (Outcome.ret () (some (Error.service err)), d,
        ⟨s1, w.calls ++ [Call.DcimSitesPartialUpdate n
          { Description := d.description, Slug := d.slug, Name := d.name }]⟩) := by
  unfold resourceNetboxDcimSiteUpdate NetBoxAPI.partialUpdate ResourceData.Id
  simp only [hp, (ResourceData.Get_fields d).1, (ResourceData.Get_fields d).2.1,
    (ResourceData.Get_fields d).2.2, hupd]

theorem Update_ok_eq (m : NetBoxAPI σ) (d : ResourceData) (w : World σ)
    (n : Int64) (hp : ParseInt d.id = (n, none)) (updated : Site) (s1 : σ)
    (hupd : m.DcimSitesPartialUpdate n
        { Description := d.description, Slug := d.slug, Name := d.name } w.remote =
      (Except.ok updated, s1)) :
    resourceNetboxDcimSiteUpdate m d w =
      resourceNetboxDcimSiteRead m d
        ⟨s1, w.calls ++ [Call.DcimSitesPartialUpdate n
          { Description := d.description, Slug := d.slug, Name := d.name }]⟩ := by
  unfold resourceNetboxDcimSiteUpdate NetBoxAPI.partialUpdate ResourceData.Id
  simp only [hp, (ResourceData.Get_fields d).1, (ResourceData.Get_fields d).2.1,
    (ResourceData.Get_fields d).2.2, hupd]

theorem Delete_list_error_eq (m : NetBoxAPI σ) (d : ResourceData) (w : World σ)
    (err : ServiceError) (s1 : σ)
    (hlist : m.DcimSitesList d.id w.remote = (Except.error err, s1)) :
    resourceNetboxDcimSiteDelete m d w =
      (Outcome.ret () (some (Error.service err)), d,
        ⟨s1, w.calls ++ [Call.DcimSitesList d.id]⟩) := by
  unfold resourceNetboxDcimSiteDelete
  rw [Exists_error m d w err s1 hlist]

/-- When `Exists` finds no entry, `Delete` returns `nil` after the list call. -/
theorem Delete_not_exists_eq (m : NetBoxAPI σ) (d : ResourceData) (w : World σ)
    (sites : List Site) (s1 : σ)
    (hlist : m.DcimSitesList d.id w.remote = (Except.ok sites, s1))
    (hno : ∀ e ∈ sites, FormatInt e.ID ≠ d.id) :
    resourceNetboxDcimSiteDelete m d w =
      (Outcome.ret () none, d, ⟨s1, w.calls ++ [Call.DcimSitesList d.id]⟩) := by
  have hfold : sites.foldl (fun resourceExist site =>
      if FormatInt site.ID = d.id then true else resourceExist) false = false := by
    rw [Bool.eq_false_iff]
    intro hb
    rcases (ExistsLoop_eq_true d.id sites false).1 hb with h | ⟨e, he, hid⟩
    · exact absurd h (by simp)
    · exact hno e he hid
  unfold resourceNetboxDcimSiteDelete
  rw [Exists_eq m d w sites s1 hlist, hfold]
  rfl

/-- When `Exists` finds an entry, the identifier parses to that entry's ID and
`Delete` sends the delete request for it; its result decides the outcome. -/
theorem Delete_exists_eq (m : NetBoxAPI σ) (d : ResourceData) (w : World σ)
    (sites : List Site) (s1 : σ)
    (hlist : m.DcimSitesList d.id w.remote = (Except.ok sites, s1))
    (e : Site) (he : e ∈ sites) (hid : FormatInt e.ID = d.id) :
    ParseInt d.id = (e.ID, none) ∧
    resourceNetboxDcimSiteDelete m d w =
      (Outcome.ret ()
          (match (m.DcimSitesDelete e.ID s1).1 with
            | Except.error err => some (Error.service err)
            | Except.ok _ => none),
        d,
        ⟨(m.DcimSitesDelete e.ID s1).2,
          w.calls ++ [Call.DcimSitesList d.id, Call.DcimSitesDelete e.ID]⟩) := by
  have hp : ParseInt d.id = (e.ID, none) := by rw [← hid]; exact ParseInt_FormatInt e.ID
  refine ⟨hp, ?_⟩
  have hfold : sites.foldl (fun resourceExist site =>
      if FormatInt site.ID = d.id then true else resourceExist) false = true :=
    (ExistsLoop_eq_true d.id sites false).2 (Or.inr ⟨e, he, hid⟩)
  unfold resourceNetboxDcimSiteDelete
  rw [Exists_eq m d w sites s1 hlist, hfold]
  simp only [Bool.not_true, Bool.false_eq_true, if_false, ResourceData.Id, hp,
    NetBoxAPI.delete]
  cases hdel : (m.DcimSitesDelete e.ID s1).1 with
  | error err => simp [List.append_assoc]
  | ok u => simp [List.append_assoc]

theorem Create_error_eq (m : NetBoxAPI σ) (d : ResourceData) (w : World σ)
    (err : ServiceError) (s1 : σ)
    (hcreate : m.DcimSitesCreate
        { Description := d.description, Slug := d.slug, Name := d.name } w.remote =
      (Except.error err, s1)) :
    resourceNetboxDcimSiteCreate m d w =
      (Outcome.ret () (some (Error.service err)), d,
        ⟨s1, w.calls ++ [Call.DcimSitesCreate
          { Description := d.description, Slug := d.slug, Name := d.name }]⟩) := by
  unfold resourceNetboxDcimSiteCreate NetBoxAPI.create
  simp only [(ResourceData.Get_fields d).1, (ResourceData.Get_fields d).2.1,
    (ResourceData.Get_fields d).2.2, hcreate]

theorem Create_ok_eq (m : NetBoxAPI σ) (d : ResourceData) (w : World σ)
    (created : Site) (s1 : σ)
    (hcreate : m.DcimSitesCreate
        { Description := d.description, Slug := d.slug, Name := d.name } w.remote =
      (Except.ok created, s1)) :
    resourceNetboxDcimSiteCreate m d w =
      resourceNetboxDcimSiteRead m (d.SetId (FormatInt created.ID))
        ⟨s1, w.calls ++ [Call.DcimSitesCreate
          { Description := d.description, Slug := d.slug, Name := d.name }]⟩ := by
  unfold resourceNetboxDcimSiteCreate NetBoxAPI.create
  simp only [(ResourceData.Get_fields d).1, (ResourceData.Get_fields d).2.1,
    (ResourceData.Get_fields d).2.2, hcreate]

/-- Whatever the service answers, `Read` sends the one list request and leaves
the identifier as it was or empty. -/
theorem Read_calls_id (m : NetBoxAPI σ) (d : ResourceData) (w : World σ) :
    (resourceNetboxDcimSiteRead m d w).2.2.calls = w.calls ++ [Call.DcimSitesList d.id] ∧
    ((resourceNetboxDcimSiteRead m d w).2.1.id = d.id ∨
      (resourceNetboxDcimSiteRead m d w).2.1.id = "") := by
  rcases hlist : m.DcimSitesList d.id w.remote with ⟨r, s1⟩
  cases r with
  | error err =>
    rw [Read_error m d w err s1 hlist]
    exact ⟨rfl, Or.inl rfl⟩
  | ok resources =>
    rw [Read_eq m d w resources s1 hlist]
    exact ⟨rfl, ReadLoop_id d resources⟩

/-- The in-memory service removes an entry on delete. -/
theorem memService_removesOnDelete : RemovesOnDelete memService where
  list_ok := fun _ _ => ⟨_, rfl⟩
  delete_ok := by
    intro id s l e hl he
    have hl1 : l = s.sites.filter (fun x => decide (FormatInt x.ID = id)) := by
      have := (Prod.mk.inj hl).1
      exact (Except.ok.inj this).symm
    have hmem : e ∈ s.sites := by
      rw [hl1] at he
      exact (List.mem_filter.1 he).1
    have hany : s.sites.any (fun x => decide (x.ID = e.ID)) = true :=
      List.any_eq_true.2 ⟨e, hmem, by simp⟩
    refine ⟨{ s with sites := s.sites.filter (fun x => decide (x.ID ≠ e.ID)) }, ?_⟩
    show (if s.sites.any (fun x => decide (x.ID = e.ID)) = true then _ else _) = _
    rw [if_pos hany]
  delete_removes := by
    intro n s s1 hdel l hl e he
    have hdel1 : (if s.sites.any (fun x => decide (x.ID = n)) = true then
        ((Except.ok () : Except ServiceError Unit),
          ({ s with sites := s.sites.filter (fun x => decide (x.ID ≠ n)) } : Store))
        else (Except.error "not found", s)) = (Except.ok (), s1) := hdel
    by_cases hany : s.sites.any (fun x => decide (x.ID = n)) = true
    · rw [if_pos hany] at hdel1
      have hs1 : s1 = { s with sites := s.sites.filter (fun x => decide (x.ID ≠ n)) } :=
        (Prod.mk.inj hdel1).2.symm
      have hl1 : l = s1.sites.filter (fun x => decide (FormatInt x.ID = FormatInt n)) := by
        have := (Prod.mk.inj hl).1
        exact (Except.ok.inj this).symm
      rw [hl1, hs1] at he
      have h1 := (List.mem_filter.1 he).1
      have h2 := (List.mem_filter.1 h1).2
      simpa using h2
    · rw [if_neg hany] at hdel1
      have := (Prod.mk.inj hdel1).1
      exact absurd this (by simp)

end AdapterLemmas

/-! ## The claims -/

section Claims

variable {σ : Type}

open strconv

/-- Claim C1: when the create call succeeds with an entry of ID `n` and the list
call for the decimal text of `n` then succeeds with the stored entry (some
returned entry has ID `n`, and every returned entry of ID `n` carries the name,
slug and description submitted), `resourceNetboxDcimSiteCreate` returns `nil`
and leaves the handle with the identifier `FormatInt n` and with the name, slug
and description it had, after exactly one create request and one list request. -/
theorem Create_then_Read (m : NetBoxAPI σ) (d : ResourceData) (w : World σ)
    (created : Site) (s1 s2 : σ) (results : List Site)
    (hcreate : m.DcimSitesCreate
        { Description := d.description, Slug := d.slug, Name := d.name } w.remote =
      (Except.ok created, s1))
    (hlist : m.DcimSitesList (FormatInt created.ID) s1 = (Except.ok results, s2))
    (hstored : ∃ e ∈ results, e.ID = created.ID)
    (hfields : ∀ e ∈ results, e.ID = created.ID →
      e.Name = some d.name ∧ e.Slug = some d.slug ∧ e.Description = d.description) :
    resourceNetboxDcimSiteCreate m d w =
      (Outcome.ret () none,
        { id := FormatInt created.ID, description := d.description, name := d.name,
          slug := d.slug },
        ⟨s2, w.calls ++ [Call.DcimSitesCreate
            { Description := d.description, Slug := d.slug, Name := d.name },
          Call.DcimSitesList (FormatInt created.ID)]⟩) := by
  unfold resourceNetboxDcimSiteCreate NetBoxAPI.create
  simp only [(ResourceData.Get_fields d).1, (ResourceData.Get_fields d).2.1,
    (ResourceData.Get_fields d).2.2, hcreate]
  rw [Read_eq m _ _ results s2 hlist]
  have hloop := ReadLoop_match (d.SetId (FormatInt created.ID)) d.description d.name d.slug
    results
    (by obtain ⟨e, he, hid⟩ := hstored; exact ⟨e, he, by rw [hid]; rfl⟩)
    (fun e he hid => hfields e he (FormatInt_injective hid))
  rw [hloop]
  simp [ResourceData.SetId]

/-- Witness of C1: the record `DC1`/`dc1` created on the in-memory service that
assigns the ID 42 ends with the identifier `"42"`. -/
theorem Create_then_Read_witness :
    resourceNetboxDcimSiteCreate memService dc1 world42 =
      (Outcome.ret () none,
        { id := "42", description := "", name := "DC1", slug := "dc1" },
        ⟨{ sites := [site42], nextID := wrapInt64 43 },
          [Call.DcimSitesCreate { Description := "", Slug := "dc1", Name := "DC1" },
            Call.DcimSitesList "42"]⟩) :=
  Create_then_Read memService dc1 world42 site42 { sites := [site42], nextID := wrapInt64 43 }
    { sites := [site42], nextID := wrapInt64 43 } [site42] rfl rfl
    ⟨site42, List.mem_singleton_self _, rfl⟩
    (fun e he _ => by rw [List.mem_singleton.1 he]; exact ⟨rfl, rfl, rfl⟩)

/-- Claim C2: when the list call succeeds and no returned entry's ID, formatted
in base 10, equals the identifier of the handle (the empty response included),
`resourceNetboxDcimSiteRead` returns `nil`, sets the identifier to the empty
string and leaves name, slug and description unchanged. -/
theorem Read_not_found (m : NetBoxAPI σ) (d : ResourceData) (w : World σ)
    (resources : List Site) (s1 : σ)
    (hlist : m.DcimSitesList d.id w.remote = (Except.ok resources, s1))
    (hno : ∀ e ∈ resources, FormatInt e.ID ≠ d.id) :
    resourceNetboxDcimSiteRead m d w =
      (Outcome.ret () none,
        { id := "", description := d.description, name := d.name, slug := d.slug },
        ⟨s1, w.calls ++ [Call.DcimSitesList d.id]⟩) := by
  rw [Read_eq m d w resources s1 hlist, ReadLoop_no_match d resources hno]

/-- Witness of C2: reading the identifier `"99"` on a service that holds only
the entry 42 clears the identifier. -/
theorem Read_not_found_witness :
    resourceNetboxDcimSiteRead memService { dc1 with id := "99" } worldWith42 =
      (Outcome.ret () none, dc1, ⟨worldWith42.remote, [Call.DcimSitesList "99"]⟩) :=
  Read_not_found memService { dc1 with id := "99" } worldWith42 [] worldWith42.remote rfl
    (fun _ he => absurd he (List.not_mem_nil _))

/-- Claim C3: `resourceNetboxDcimSiteExists` never changes the handle; when the
list call succeeds it returns `nil` and the flag that is true if and only if
some returned entry's ID formatted in base 10 equals the identifier, hence
false for the empty identifier whatever the list returns and false for an
empty list. -/
theorem Exists_true_iff (m : NetBoxAPI σ) (d : ResourceData) (w : World σ) :
    (resourceNetboxDcimSiteExists m d w).2.1 = d ∧
    ∀ (sites : List Site) (s1 : σ),
      m.DcimSitesList d.id w.remote = (Except.ok sites, s1) →
      ∃ b : Bool,
        resourceNetboxDcimSiteExists m d w =
          (Outcome.ret b none, d, ⟨s1, w.calls ++ [Call.DcimSitesList d.id]⟩) ∧
        (b = true ↔ ∃ e ∈ sites, FormatInt e.ID = d.id) ∧
        (d.id = "" → b = false) ∧
        (sites = [] → b = false) := by
  constructor
  · unfold resourceNetboxDcimSiteExists
    simp only
    split <;> rfl
  · intro sites s1 hlist
    refine ⟨_, Exists_eq m d w sites s1 hlist, ?_, ?_, ?_⟩
    · rw [ExistsLoop_eq_true]
      simp
    · intro hid
      rw [Bool.eq_false_iff]
      intro hb
      rcases (ExistsLoop_eq_true d.id sites false).1 hb with h | ⟨e, _, he⟩
      · exact absurd h (by simp)
      · exact FormatInt_ne_empty e.ID (by rw [he, hid])
    · intro hs
      subst hs
      rfl

/-- Witness of C3: on a service that holds the entry 42, `Exists` is true for
the identifier `"42"`. -/
theorem Exists_true_iff_witness :
    resourceNetboxDcimSiteExists memService { dc1 with id := "42" } worldWith42 =
        (Outcome.ret true none, { dc1 with id := "42" },
          ⟨worldWith42.remote, [Call.DcimSitesList "42"]⟩) := by
  obtain ⟨b, hb, hiff, _, _⟩ :=
    (Exists_true_iff memService { dc1 with id := "42" } worldWith42).2 [site42]
      worldWith42.remote rfl
  have : b = true := hiff.2 ⟨site42, List.mem_singleton_self _, rfl⟩
  rw [hb, this]
  rfl

/-- Claim C4: `Delete` is idempotent. When the list call succeeds with no entry
matching the identifier, `resourceNetboxDcimSiteDelete` returns `nil`, sends no
request but the one list request and leaves the handle unchanged. Hence on a
service that removes an entry on delete, two calls of `Delete` in succession
both return `nil`, and the second sends no delete request. -/
theorem Delete_idempotent (m : NetBoxAPI σ) (d : ResourceData) (w : World σ) :
    (∀ (sites : List Site) (s1 : σ),
      m.DcimSitesList d.id w.remote = (Except.ok sites, s1) →
      (∀ e ∈ sites, FormatInt e.ID ≠ d.id) →
      resourceNetboxDcimSiteDelete m d w =
        (Outcome.ret () none, d, ⟨s1, w.calls ++ [Call.DcimSitesList d.id]⟩)) ∧
    (RemovesOnDelete m →
      (resourceNetboxDcimSiteDelete m d w).1 = Outcome.ret () none ∧
      (resourceNetboxDcimSiteDelete m d w).2.1 = d ∧
      resourceNetboxDcimSiteDelete m (resourceNetboxDcimSiteDelete m d w).2.1
          (resourceNetboxDcimSiteDelete m d w).2.2 =
        (Outcome.ret () none, d,
          ⟨(resourceNetboxDcimSiteDelete m d w).2.2.remote,
            (resourceNetboxDcimSiteDelete m d w).2.2.calls ++ [Call.DcimSitesList d.id]⟩)) := by
  refine ⟨fun sites s1 hlist hno => Delete_not_exists_eq m d w sites s1 hlist hno, ?_⟩
  intro hm
  obtain ⟨l, hl⟩ := hm.list_ok d.id w.remote
  by_cases hex : ∃ e ∈ l, FormatInt e.ID = d.id
  · obtain ⟨e, he, hid⟩ := hex
    obtain ⟨s1, hdel⟩ := hm.delete_ok d.id w.remote l e hl he
    obtain ⟨_, hD⟩ := Delete_exists_eq m d w l w.remote hl e he hid
    rw [hdel] at hD
    simp only at hD
    rw [hD]
    refine ⟨rfl, rfl, ?_⟩
    obtain ⟨l2, hl2⟩ := hm.list_ok d.id s1
    have hgone : ∀ x ∈ l2, FormatInt x.ID ≠ d.id := by
      intro x hx hxid
      have hl3 : m.DcimSitesList (FormatInt e.ID) s1 = (Except.ok l2, s1) := by
        rw [hid]; exact hl2
      exact hm.delete_removes e.ID w.remote s1 hdel l2 hl3 x hx
        (FormatInt_injective (hxid.trans hid.symm))
    exact Delete_not_exists_eq m d ⟨s1, _⟩ l2 s1 hl2 hgone
  · have hno : ∀ e ∈ l, FormatInt e.ID ≠ d.id := fun e he hid => hex ⟨e, he, hid⟩
    have hD := Delete_not_exists_eq m d w l w.remote hl hno
    rw [hD]
    refine ⟨rfl, rfl, ?_⟩
    exact Delete_not_exists_eq m d ⟨w.remote, _⟩ l w.remote hl hno

/-- Witness of C4: `Delete` on the identifier `"99"`, which matches no entry of
the service, returns `nil` after the list request alone; and deleting the
entry 42 twice returns `nil` both times, the second time without a delete
request. -/
theorem Delete_idempotent_witness :
    resourceNetboxDcimSiteDelete memService { dc1 with id := "99" } worldWith42 =
      (Outcome.ret () none, { dc1 with id := "99" },
        ⟨worldWith42.remote, [Call.DcimSitesList "99"]⟩) ∧
    resourceNetboxDcimSiteDelete memService { dc1 with id := "42" } worldWith42 =
      (Outcome.ret () none, { dc1 with id := "42" },
        ⟨{ sites := [], nextID := wrapInt64 43 },
          [Call.DcimSitesList "42", Call.DcimSitesDelete id42]⟩) ∧
    resourceNetboxDcimSiteDelete memService { dc1 with id := "42" }
        ⟨{ sites := [], nextID := wrapInt64 43 },
          [Call.DcimSitesList "42", Call.DcimSitesDelete id42]⟩ =
      (Outcome.ret () none, { dc1 with id := "42" },
        ⟨{ sites := [], nextID := wrapInt64 43 },
          [Call.DcimSitesList "42", Call.DcimSitesDelete id42, Call.DcimSitesList "42"]⟩) := by
  refine ⟨(Delete_idempotent memService { dc1 with id := "99" } worldWith42).1 []
    worldWith42.remote rfl (fun _ he => absurd he (List.not_mem_nil _)), rfl, ?_⟩
  have h := ((Delete_idempotent memService { dc1 with id := "42" } worldWith42).2
    memService_removesOnDelete).2.2
  exact h

/-- Claim C7: the adapter never invents an ID. For each of `Create`, `Read`,
`Update`, `Delete` and `Exists` and whatever the service answers, the requests
the operation sends are appended to the log, every partial-update or delete
request among them is addressed to the number parsed from the identifier of the
handle, and the identifier afterwards is the one before, the empty string, or
(for `Create` only) the decimal text of the ID the create call returned. -/
theorem never_invents_id (m : NetBoxAPI σ) (d : ResourceData) (w : World σ) :
    (∃ sent, (resourceNetboxDcimSiteCreate m d w).2.2.calls = w.calls ++ sent ∧
      RequestsUseParsedId d.id sent ∧
      ((resourceNetboxDcimSiteCreate m d w).2.1.id = d.id ∨
        (resourceNetboxDcimSiteCreate m d w).2.1.id = "" ∨
        ∃ created s1,
          m.DcimSitesCreate { Description := d.description, Slug := d.slug, Name := d.name }
            w.remote = (Except.ok created, s1) ∧
          (resourceNetboxDcimSiteCreate m d w).2.1.id = FormatInt created.ID)) ∧
    (∃ sent, (resourceNetboxDcimSiteRead m d w).2.2.calls = w.calls ++ sent ∧
      RequestsUseParsedId d.id sent ∧
      ((resourceNetboxDcimSiteRead m d w).2.1.id = d.id ∨
        (resourceNetboxDcimSiteRead m d w).2.1.id = "")) ∧
    (∃ sent, (resourceNetboxDcimSiteUpdate m d w).2.2.calls = w.calls ++ sent ∧
      RequestsUseParsedId d.id sent ∧
      ((resourceNetboxDcimSiteUpdate m d w).2.1.id = d.id ∨
        (resourceNetboxDcimSiteUpdate m d w).2.1.id = "")) ∧
    (∃ sent, (resourceNetboxDcimSiteDelete m d w).2.2.calls = w.calls ++ sent ∧
      RequestsUseParsedId d.id sent ∧
      ((resourceNetboxDcimSiteDelete m d w).2.1.id = d.id ∨
        (resourceNetboxDcimSiteDelete m d w).2.1.id = "")) ∧
    (∃ sent, (resourceNetboxDcimSiteExists m d w).2.2.calls = w.calls ++ sent ∧
      RequestsUseParsedId d.id sent ∧
      ((resourceNetboxDcimSiteExists m d w).2.1.id = d.id ∨
        (resourceNetboxDcimSiteExists m d w).2.1.id = "")) := by
  have huse1 : ∀ (id x : String), RequestsUseParsedId id [Call.DcimSitesList x] := by
    intro id x c hc
    rw [List.mem_singleton.1 hc]
    trivial
  refine ⟨?_, ?_, ?_, ?_, ?_⟩
  · -- Create
    rcases hcreate : m.DcimSitesCreate
      { Description := d.description, Slug := d.slug, Name := d.name } w.remote with ⟨r, s1⟩
    cases r with
    | error err =>
      rw [Create_error_eq m d w err s1 hcreate]
      refine ⟨_, rfl, ?_, Or.inl rfl⟩
      intro c hc
      rw [List.mem_singleton.1 hc]
      trivial
    | ok created =>
      rw [Create_ok_eq m d w created s1 hcreate]
      obtain ⟨hcalls, hid⟩ := Read_calls_id m (d.SetId (FormatInt created.ID))
        ⟨s1, w.calls ++ [Call.DcimSitesCreate
          { Description := d.description, Slug := d.slug, Name := d.name }]⟩
      refine ⟨[Call.DcimSitesCreate
          { Description := d.description, Slug := d.slug, Name := d.name },
        Call.DcimSitesList (FormatInt created.ID)], ?_, ?_, ?_⟩
      · rw [hcalls]
        simp [ResourceData.SetId]
      · intro c hc
        rcases List.mem_cons.1 hc with h | h
        · rw [h]; trivial
        · rw [List.mem_singleton.1 h]; trivial
      · rcases hid with h | h
        · exact Or.inr (Or.inr ⟨created, s1, rfl, h⟩)
        · exact Or.inr (Or.inl h)
  · -- Read
    obtain ⟨hcalls, hid⟩ := Read_calls_id m d w
    exact ⟨_, hcalls, huse1 _ _, hid⟩
  · -- Update
    rcases hp : ParseInt d.id with ⟨n, perr⟩
    cases perr with
    | some err =>
      rw [Update_parse_error_eq m d w err (by rw [hp])]
      exact ⟨[], (List.append_nil _).symm, fun c hc => absurd hc (List.not_mem_nil _),
        Or.inl rfl⟩
    | none =>
      rcases hupd : m.DcimSitesPartialUpdate n
        { Description := d.description, Slug := d.slug, Name := d.name } w.remote with ⟨r, s1⟩
      cases r with
      | error err =>
        rw [Update_service_error_eq m d w n hp err s1 hupd]
        refine ⟨_, rfl, ?_, Or.inl rfl⟩
        intro c hc
        rw [List.mem_singleton.1 hc]
        exact hp
      | ok updated =>
        rw [Update_ok_eq m d w n hp updated s1 hupd]
        obtain ⟨hcalls, hid⟩ := Read_calls_id m d
          ⟨s1, w.calls ++ [Call.DcimSitesPartialUpdate n
            { Description := d.description, Slug := d.slug, Name := d.name }]⟩
        refine ⟨[Call.DcimSitesPartialUpdate n
            { Description := d.description, Slug := d.slug, Name := d.name },
          Call.DcimSitesList d.id], ?_, ?_, hid⟩
        · rw [hcalls]
          simp
        · intro c hc
          rcases List.mem_cons.1 hc with h | h
          · rw [h]; exact hp
          · rw [List.mem_singleton.1 h]; trivial
  · -- Delete
    rcases hlist : m.DcimSitesList d.id w.remote with ⟨r, s1⟩
    cases r with
    | error err =>
      rw [Delete_list_error_eq m d w err s1 hlist]
      exact ⟨_, rfl, huse1 _ _, Or.inl rfl⟩
    | ok sites =>
      by_cases hex : ∃ e ∈ sites, FormatInt e.ID = d.id
      · obtain ⟨e, he, hid⟩ := hex
        obtain ⟨hp, hD⟩ := Delete_exists_eq m d w sites s1 hlist e he hid
        rw [hD]
        refine ⟨_, rfl, ?_, Or.inl rfl⟩
        intro c hc
        rcases List.mem_cons.1 hc with h | h
        · rw [h]; trivial
        · rw [List.mem_singleton.1 h]; exact hp
      · rw [Delete_not_exists_eq m d w sites s1 hlist (fun e he hid => hex ⟨e, he, hid⟩)]
        exact ⟨_, rfl, huse1 _ _, Or.inl rfl⟩
  · -- Exists
    rcases hlist : m.DcimSitesList d.id w.remote with ⟨r, s1⟩
    cases r with
    | error err =>
      rw [Exists_error m d w err s1 hlist]
      exact ⟨_, rfl, huse1 _ _, Or.inl rfl⟩
    | ok sites =>
      rw [Exists_eq m d w sites s1 hlist]
      exact ⟨_, rfl, huse1 _ _, Or.inl rfl⟩

/-- Claim C9: the parse-error branch of `resourceNetboxDcimSiteDelete` is
unreachable. `Delete` never returns an error made by `fmt.Errorf`, whatever the
identifier and the service; and whenever `Exists` returns true, the identifier
is the base-10 text of the ID of a returned entry, `ParseInt` succeeds on it
with exactly that ID, and that ID is the one in the delete request. -/
theorem Delete_parse_error_unreachable (m : NetBoxAPI σ) (d : ResourceData) (w : World σ) :
    (∀ msg : String,
      (resourceNetboxDcimSiteDelete m d w).1 ≠ Outcome.ret () (some (Error.errorf msg))) ∧
    ((resourceNetboxDcimSiteExists m d w).1 = Outcome.ret true none →
      ∃ sites s1 e,
        m.DcimSitesList d.id w.remote = (Except.ok sites, s1) ∧ e ∈ sites ∧
        d.id = FormatInt e.ID ∧ ParseInt d.id = (e.ID, none) ∧
        (resourceNetboxDcimSiteDelete m d w).2.2.calls =
          w.calls ++ [Call.DcimSitesList d.id, Call.DcimSitesDelete e.ID]) := by
  rcases hlist : m.DcimSitesList d.id w.remote with ⟨r, s1⟩
  cases r with
  | error err =>
    rw [Delete_list_error_eq m d w err s1 hlist, Exists_error m d w err s1 hlist]
    exact ⟨fun msg h => by simp at h, fun h => by simp at h⟩
  | ok sites =>
    by_cases hex : ∃ e ∈ sites, FormatInt e.ID = d.id
    · obtain ⟨e, he, hid⟩ := hex
      obtain ⟨hp, hD⟩ := Delete_exists_eq m d w sites s1 hlist e he hid
      rw [hD]
      constructor
      · intro msg h
        cases hdel : (m.DcimSitesDelete e.ID s1).1 with
        | error err => rw [hdel] at h; simp at h
        | ok u => rw [hdel] at h; simp at h
      · intro _
        exact ⟨sites, s1, e, rfl, he, hid.symm, hp, rfl⟩
    · have hno : ∀ e ∈ sites, FormatInt e.ID ≠ d.id := fun e he hid => hex ⟨e, he, hid⟩
      rw [Delete_not_exists_eq m d w sites s1 hlist hno, Exists_eq m d w sites s1 hlist]
      constructor
      · intro msg h
        simp at h
      · intro h
        have hb : sites.foldl (fun resourceExist site =>
            if FormatInt site.ID = d.id then true else resourceExist) false = true := by
          simpa using h
        rcases (ExistsLoop_eq_true d.id sites false).1 hb with h1 | ⟨e, he, hid⟩
        · exact absurd h1 (by simp)
        · exact absurd hid (hno e he)

/-- Witness of C9: on a service that holds the entry 42, `Exists` is true for
the identifier `"42"`, which parses to 42, and `Delete` sends the delete
request for 42. -/
theorem Delete_parse_error_unreachable_witness :
    ∃ sites s1 e,
      memService.DcimSitesList "42" worldWith42.remote = (Except.ok sites, s1) ∧ e ∈ sites ∧
      "42" = FormatInt e.ID ∧ ParseInt "42" = (e.ID, none) ∧
      (resourceNetboxDcimSiteDelete memService { dc1 with id := "42" } worldWith42).2.2.calls =
        [] ++ [Call.DcimSitesList "42", Call.DcimSitesDelete e.ID] :=
  (Delete_parse_error_unreachable memService { dc1 with id := "42" } worldWith42).2 rfl

/-- Claim C10: for an identifier that `ParseInt` reads as `n` but that is not
the text `FormatInt` writes for `n` (such as `+42` or `007`), when the
partial-update call and the list call succeed, `resourceNetboxDcimSiteUpdate`
sends the partial-update request addressed to `n`, then the list request, and
returns `nil` with the identifier cleared to the empty string and the fields
as they were, whatever entries the list returned. -/
theorem Update_noncanonical_identifier (m : NetBoxAPI σ) (d : ResourceData) (w : World σ)
    (n : Int64) (hp : ParseInt d.id = (n, none)) (hnc : d.id ≠ FormatInt n)
    (updated : Site) (s1 : σ)
    (hupd : m.DcimSitesPartialUpdate n
        { Description := d.description, Slug := d.slug, Name := d.name } w.remote =
      (Except.ok updated, s1))
    (resources : List Site) (s2 : σ)
    (hlist : m.DcimSitesList d.id s1 = (Except.ok resources, s2)) :
    resourceNetboxDcimSiteUpdate m d w =
      (Outcome.ret () none,
        { id := "", description := d.description, name := d.name, slug := d.slug },
        ⟨s2, w.calls ++ [Call.DcimSitesPartialUpdate n
            { Description := d.description, Slug := d.slug, Name := d.name },
          Call.DcimSitesList d.id]⟩) := by
  rw [Update_ok_eq m d w n hp updated s1 hupd,
    Read_eq m d ⟨s1, _⟩ resources s2 hlist,
    ReadLoop_no_match d resources (fun e _ => FormatInt_ne_of_ParseInt hp hnc e.ID)]
  simp

/-- Witness of C10: updating with the identifier `+42` on a service that holds
the entry 42 rewrites that entry and leaves the handle without identifier. -/
theorem Update_noncanonical_identifier_witness :
    resourceNetboxDcimSiteUpdate memService
        { id := "+42", description := "new", name := "DC1", slug := "dc1" } worldWith42 =
      (Outcome.ret () none,
        { id := "", description := "new", name := "DC1", slug := "dc1" },
        ⟨{ sites := [Store.entry id42 { Description := "new", Slug := "dc1", Name := "DC1" }],
            nextID := wrapInt64 43 },
          [Call.DcimSitesPartialUpdate id42
              { Description := "new", Slug := "dc1", Name := "DC1" },
            Call.DcimSitesList "+42"]⟩) :=
  Update_noncanonical_identifier memService
    { id := "+42", description := "new", name := "DC1", slug := "dc1" } worldWith42
    id42 (by decide) (by decide)
    (Store.entry id42 { Description := "new", Slug := "dc1", Name := "DC1" })
    { sites := [Store.entry id42 { Description := "new", Slug := "dc1", Name := "DC1" }],
      nextID := wrapInt64 43 }
    rfl [] _ rfl

/-- Claim C5: for an identifier that is not a valid base-10 64-bit signed
integer string (not numeric, empty, or out of the `int64` range),
`resourceNetboxDcimSiteUpdate` returns the error of `strconv.ParseInt`, sends no
request to the service and leaves the handle unchanged. -/
theorem Update_invalid_identifier (m : NetBoxAPI σ) (d : ResourceData) (w : World σ)
    (hinvalid : isInt64String d.id = false) :
    ∃ err : NumError, (ParseInt d.id).2 = some err ∧
      resourceNetboxDcimSiteUpdate m d w =
        (Outcome.ret () (some (Error.parse err)), d, w) := by
  cases hp : (ParseInt d.id).2 with
  | none =>
    have := (ParseInt_ok_iff d.id).1 hp
    rw [hinvalid] at this
    exact absurd this (by simp)
  | some err => exact ⟨err, rfl, Update_parse_error_eq m d w err hp⟩

/-- Witness of C5: the identifiers `abc`, the empty string and
`9223372036854775808` make `Update` fail with the syntax or range error of
`ParseInt` before any request is sent. -/
theorem Update_invalid_identifier_witness :
    (∃ err : NumError, (ParseInt "abc").2 = some err ∧
      resourceNetboxDcimSiteUpdate memService { dc1 with id := "abc" } worldWith42 =
        (Outcome.ret () (some (Error.parse err)), { dc1 with id := "abc" }, worldWith42)) ∧
    (∃ err : NumError, (ParseInt "").2 = some err ∧
      resourceNetboxDcimSiteUpdate memService dc1 worldWith42 =
        (Outcome.ret () (some (Error.parse err)), dc1, worldWith42)) ∧
    (∃ err : NumError, (ParseInt "9223372036854775808").2 = some err ∧
      resourceNetboxDcimSiteUpdate memService { dc1 with id := "9223372036854775808" }
          worldWith42 =
        (Outcome.ret () (some (Error.parse err)), { dc1 with id := "9223372036854775808" },
          worldWith42)) :=
  ⟨Update_invalid_identifier memService { dc1 with id := "abc" } worldWith42 (by decide),
    Update_invalid_identifier memService dc1 worldWith42 (by decide),
    Update_invalid_identifier memService { dc1 with id := "9223372036854775808" } worldWith42
      (by decide)⟩

/-- Counterexample to C6 as stated: the identifier `abc` is not a valid 64-bit
integer string and the list call succeeds, yet `Delete` returns `nil`, not the
error with the text "Unable to convert ID into int64". -/
theorem Delete_invalid_identifier_counterexample :
    isInt64String "abc" = false ∧
    memService.DcimSitesList "abc" worldWith42.remote = (Except.ok [], worldWith42.remote) ∧
    (resourceNetboxDcimSiteDelete memService { dc1 with id := "abc" } worldWith42).1 =
      Outcome.ret () none ∧
    (resourceNetboxDcimSiteDelete memService { dc1 with id := "abc" } worldWith42).1 ≠
      Outcome.ret () (some (Error.errorf "Unable to convert ID into int64")) :=
  ⟨by decide, rfl, rfl, by decide⟩

/-- Claim C6, amended: when the identifier is not a valid 64-bit integer
string at `Delete` time and the list call succeeds, `Exists` finds no entry
(no `int64` formats to such an identifier) and `resourceNetboxDcimSiteDelete`
returns `nil` after the list request alone, with the handle unchanged; the
parse of the identifier is not reached. -/
theorem Delete_invalid_identifier (m : NetBoxAPI σ) (d : ResourceData) (w : World σ)
    (hinvalid : isInt64String d.id = false)
    (sites : List Site) (s1 : σ)
    (hlist : m.DcimSitesList d.id w.remote = (Except.ok sites, s1)) :
    resourceNetboxDcimSiteDelete m d w =
      (Outcome.ret () none, d, ⟨s1, w.calls ++ [Call.DcimSitesList d.id]⟩) := by
  have hp : (ParseInt d.id).2 ≠ none := by
    intro h
    have := (ParseInt_ok_iff d.id).1 h
    rw [hinvalid] at this
    exact absurd this (by simp)
  exact Delete_not_exists_eq m d w sites s1 hlist
    (fun e _ => FormatInt_ne_of_ParseInt_error hp e.ID)

/-- Witness of the amended C6: `Delete` on the identifier `abc` returns `nil`
after the list request alone. -/
theorem Delete_invalid_identifier_witness :
    resourceNetboxDcimSiteDelete memService { dc1 with id := "abc" } worldWith42 =
      (Outcome.ret () none, { dc1 with id := "abc" },
        ⟨worldWith42.remote, [] ++ [Call.DcimSitesList "abc"]⟩) :=
  Delete_invalid_identifier memService { dc1 with id := "abc" } worldWith42 (by decide)
    [] worldWith42.remote rfl

end Claims

end Netbox

